import Mathlib

/-!
Verification of the gittuf RSL (Reference State Log) core against its
specification.

The development shallowly embeds the RSL subsystem: the entry codec
(serialization of reference and annotation entries to commit-message text
and parsing back), the log and its filtered queries, the repository façade
operations, and the sync-protocol classification.  Commit-message text is
modelled at line granularity (a Go string split on `"\n"` corresponds
exactly to a `List String` of newline-free lines), hashes are modelled by
their printable hex form, and message bytes by lists of naturals below 256.
-/

namespace Gittuf

/-- Error categories surfaced by the RSL core, named after the behavioral
categories of the specification (§6): `invalidEntry` for undecodable entry
text, `rslEntryNotFound` for a missing log entry, `noRecordOfCommit` when no
entry covers a commit, and `fetchFailed` for an opaque transport failure. -/
inductive RSLError where
  | invalidEntry
  | rslEntryNotFound
  | noRecordOfCommit
  | fetchFailed
  deriving DecidableEq

instance {ε α : Type} [DecidableEq ε] [DecidableEq α] : DecidableEq (Except ε α) := fun x y =>
  match x, y with
  | .ok a, .ok b => if h : a = b then .isTrue (by rw [h]) else .isFalse (by simp [h])
  | .error a, .error b => if h : a = b then .isTrue (by rw [h]) else .isFalse (by simp [h])
  | .ok _, .error _ => .isFalse (by simp)
  | .error _, .ok _ => .isFalse (by simp)

/-- A content address in its printable hex form.  Equality of hashes is byte
equality, which coincides with equality of the hex strings. -/
abbrev Hash := String

/-- The distinguished zero hash denoting "absent" or "uninitialized"
(SHA-1 width: forty hex zeros). -/
def ZeroHash : Hash := "0000000000000000000000000000000000000000"

/-- Whether a character is a lowercase hex digit. -/
def isHexDigit (c : Char) : Bool :=
  ('0' ≤ c && c ≤ '9') || ('a' ≤ c && c ≤ 'f')

/-- Whether a string is a valid fixed-width hex content address. -/
def isValidHexHash (s : String) : Bool :=
  s.data.length == 40 && s.data.all isHexDigit

/-- Modelled from the spec: the object interface's hash constructor
(`gitinterface.NewHash`, not under src/), which validates the printable hex
form of a fixed-width content address and fails on malformed input.  All
codec-level failures are reported as `invalidEntry`. -/
def NewHash (s : String) : Except RSLError Hash :=
  if isValidHexHash s then .ok s else .error .invalidEntry

theorem NewHash_valid {s : String} (h : isValidHexHash s = true) : NewHash s = .ok s := by
  simp [NewHash, h]

/-! ### Base64

The annotation codec isolates multi-line and UTF-8 message content from
line-oriented parsing via base64 (§4.2).  `b64Encode` maps a byte list to
sextets, using `64` as the padding marker; `sextetToChar` maps sextets to
the base64 alphabet (with `64 ↦ '='`). -/

/-- Base64 encoding at the bit level: bytes to sextets, `64` as padding. -/
def b64Encode : List Nat → List Nat
  | a :: b :: c :: rest =>
      a / 4 :: (a % 4 * 16 + b / 16) :: (b % 16 * 4 + c / 64) :: c % 64 :: b64Encode rest
  | [a, b] => [a / 4, a % 4 * 16 + b / 16, b % 16 * 4, 64]
  | [a] => [a / 4, a % 4 * 16, 64, 64]
  | [] => []

/-- Base64 decoding at the bit level: sextets (with `64` as padding) back to
bytes.  Inputs whose length is not a multiple of four are rejected. -/
def b64Decode : List Nat → Option (List Nat)
  | s1 :: s2 :: s3 :: s4 :: rest =>
      if s3 = 64 ∧ s4 = 64 ∧ rest = [] then some [s1 * 4 + s2 / 16]
      else if s4 = 64 ∧ rest = [] then some [s1 * 4 + s2 / 16, s2 % 16 * 16 + s3 / 4]
      else
        match b64Decode rest with
        | some ds => some ((s1 * 4 + s2 / 16) :: (s2 % 16 * 16 + s3 / 4) :: (s3 % 4 * 64 + s4) :: ds)
        | none => none
  | [] => some []
  | _ => none

theorem b64Decode_b64Encode : ∀ l : List Nat, (∀ x ∈ l, x < 256) →
    b64Decode (b64Encode l) = some l
  | [], _ => rfl
  | [a], h => by
      have ha : a < 256 := h a (by simp)
      simp only [b64Encode, b64Decode]
      rw [if_pos (by simp)]
      have : a / 4 * 4 + a % 4 * 16 / 16 = a := by omega
      rw [this]
  | [a, b], h => by
      have ha : a < 256 := h a (by simp)
      have hb : b < 256 := h b (by simp)
      simp only [b64Encode, b64Decode]
      rw [if_neg (by omega), if_pos (by simp)]
      have h1 : a / 4 * 4 + (a % 4 * 16 + b / 16) / 16 = a := by omega
      have h2 : (a % 4 * 16 + b / 16) % 16 * 16 + b % 16 * 4 / 4 = b := by omega
      rw [h1, h2]
  | a :: b :: c :: rest, h => by
      have ha : a < 256 := h a (by simp)
      have hb : b < 256 := h b (by simp)
      have hc : c < 256 := h c (by simp)
      have ih := b64Decode_b64Encode rest (fun x hx => h x (by simp [hx]))
      simp only [b64Encode, b64Decode]
      rw [if_neg (by omega), if_neg (by omega), ih]
      have h1 : a / 4 * 4 + (a % 4 * 16 + b / 16) / 16 = a := by omega
      have h2 : (a % 4 * 16 + b / 16) % 16 * 16 + (b % 16 * 4 + c / 64) / 4 = b := by omega
      have h3 : (b % 16 * 4 + c / 64) % 4 * 64 + c % 64 = c := by omega
      rw [h1, h2, h3]

theorem b64Encode_bound : ∀ l : List Nat, (∀ x ∈ l, x < 256) →
    ∀ s ∈ b64Encode l, s < 65
  | [], _ => by simp [b64Encode]
  | [a], h => by
      have ha : a < 256 := h a (by simp)
      simp only [b64Encode]
      intro s hs
      simp at hs
      rcases hs with h | h | h | h <;> omega
  | [a, b], h => by
      have ha : a < 256 := h a (by simp)
      have hb : b < 256 := h b (by simp)
      simp only [b64Encode]
      intro s hs
      simp at hs
      rcases hs with h | h | h | h <;> omega
  | a :: b :: c :: rest, h => by
      have ha : a < 256 := h a (by simp)
      have hb : b < 256 := h b (by simp)
      have hc : c < 256 := h c (by simp)
      have ih := b64Encode_bound rest (fun x hx => h x (by simp [hx]))
      simp only [b64Encode]
      intro s hs
      simp only [List.mem_cons] at hs
      rcases hs with h | h | h | h | h
      · omega
      · omega
      · omega
      · omega
      · exact ih s h

/-- The base64 alphabet: sextets `0..63` to characters, `64` to the padding
character. -/
def sextetToChar (n : Nat) : Char :=
  if n < 26 then Char.ofNat (65 + n)
  else if n < 52 then Char.ofNat (97 + (n - 26))
  else if n < 62 then Char.ofNat (48 + (n - 52))
  else if n = 62 then '+'
  else if n = 63 then '/'
  else '='

/-- Inverse of the base64 alphabet; `none` on characters outside it. -/
def charToSextet (c : Char) : Option Nat :=
  if 'A' ≤ c ∧ c ≤ 'Z' then some (c.toNat - 65)
  else if 'a' ≤ c ∧ c ≤ 'z' then some (c.toNat - 97 + 26)
  else if '0' ≤ c ∧ c ≤ '9' then some (c.toNat - 48 + 52)
  else if c = '+' then some 62
  else if c = '/' then some 63
  else if c = '=' then some 64
  else none

theorem charToSextet_sextetToChar : ∀ n, n < 65 → charToSextet (sextetToChar n) = some n := by
  decide

/-- Map a list of characters back to sextets; fails on any character outside
the base64 alphabet. -/
def charsToSextets : List Char → Option (List Nat)
  | [] => some []
  | c :: cs =>
      match charToSextet c, charsToSextets cs with
      | some s, some ss => some (s :: ss)
      | _, _ => none

theorem charsToSextets_map : ∀ l : List Nat, (∀ x ∈ l, x < 65) →
    charsToSextets (l.map sextetToChar) = some l
  | [], _ => rfl
  | x :: xs, h => by
      have hx := charToSextet_sextetToChar x (h x (by simp))
      have ih := charsToSextets_map xs (fun y hy => h y (by simp [hy]))
      simp only [List.map_cons, charsToSextets, hx, ih]

/-- The single base64 text line carrying an annotation's message bytes. -/
def encodeB64Line (msg : List Nat) : String :=
  String.mk ((b64Encode msg).map sextetToChar)

/-- Decode a base64 text line back into message bytes. -/
def decodeB64Line (s : String) : Option (List Nat) :=
  match charsToSextets s.data with
  | some sx => b64Decode sx
  | none => none

theorem decodeB64Line_encodeB64Line (msg : List Nat) (h : ∀ x ∈ msg, x < 256) :
    decodeB64Line (encodeB64Line msg) = some msg := by
  unfold decodeB64Line encodeB64Line
  rw [show (String.mk ((b64Encode msg).map sextetToChar)).data
        = (b64Encode msg).map sextetToChar from rfl]
  rw [charsToSextets_map (b64Encode msg) (b64Encode_bound msg h)]
  exact b64Decode_b64Encode msg h

/-! ### Entry codec (§4.2)

Headers, keys and delimiters are fixed by the message grammar (§6).  The
commit-message text is modelled as its list of lines. -/

/-- Header line of a reference entry. -/
def ReferenceEntryHeader : String := "RSL Reference Entry"

/-- Header line of an annotation entry. -/
def AnnotationEntryHeader : String := "RSL Annotation Entry"

/-- Key of the reference-name line of a reference entry. -/
def RefKey : String := "ref"

/-- Key of the target line of a reference entry. -/
def TargetIDKey : String := "targetID"

/-- Key of the referred-entry lines of an annotation entry. -/
def EntryIDKey : String := "entryID"

/-- Key of the skip line of an annotation entry. -/
def SkipKey : String := "skip"

/-- Opening delimiter of an annotation's message trailer. -/
def BeginMessage : String := "-----BEGIN MESSAGE-----"

/-- Closing delimiter of an annotation's message trailer. -/
def EndMessage : String := "-----END MESSAGE-----"

/-- Modelled from the spec: the polymorphic `Entry` record of the data model
(§3), a tagged sum of the two variants (the `internal/rsl` package is not
under src/).  `id` is the address of the commit carrying the entry, assigned
at read time and never persisted inside the message. -/
inductive Entry where
  | referenceEntry (id : Hash) (refName : String) (targetID : Hash)
  | annotationEntry (id : Hash) (rslEntryIDs : List Hash) (skip : Bool) (message : List Nat)
  deriving DecidableEq

/-- The commit address carrying the entry (`GetID`). -/
def Entry.getID : Entry → Hash
  | .referenceEntry id _ _ => id
  | .annotationEntry id _ _ _ => id

/-- A `<Key>: <Value>` line. -/
def kvLine (key value : String) : String := key ++ ": " ++ value

/-- The `skip: true|false` line of an annotation entry. -/
def skipLine (skip : Bool) : String := kvLine SkipKey (if skip then "true" else "false")

/-- The optional message trailer block of an annotation entry: omitted
entirely when the message is empty, otherwise the base64 payload between the
BEGIN/END delimiters. -/
def msgBlock (msg : List Nat) : List String :=
  if msg = [] then [] else [BeginMessage, encodeB64Line msg, EndMessage]

/-- Modelled from the spec: `createCommitMessage` of the two entry variants
(`internal/rsl`, not under src/), per the serialization format of §4.2: a
header, a blank line, then key/value lines; annotations carry one `entryID`
line per referred entry (order preserved), the `skip` line, and — exactly
when the message is non-empty — the base64 message trailer. -/
def createCommitMessage : Entry → List String
  | .referenceEntry _ refName targetID =>
      [ReferenceEntryHeader, "", kvLine RefKey refName, kvLine TargetIDKey targetID]
  | .annotationEntry _ ids skip msg =>
      [AnnotationEntryHeader, ""] ++ ids.map (kvLine EntryIDKey) ++ [skipLine skip]
        ++ msgBlock msg

/-- Whether the pattern is an initial segment of the character list. -/
def startsWith : List Char → List Char → Bool
  | [], _ => true
  | _ :: _, [] => false
  | p :: ps, c :: cs => p == c && startsWith ps cs

/-- The character pattern `<key>: ` opening a key/value line. -/
def keyPat (key : String) : List Char := key.data ++ [':', ' ']

/-- Extract the value of a `<Key>: <Value>` line; `none` when the line does
not carry the given key. -/
def keyValue (key line : String) : Option String :=
  if startsWith (keyPat key) line.data then
    some (String.mk (line.data.drop (keyPat key).length))
  else none

theorem stringDataEq {s t : String} (h : s.data = t.data) : s = t :=
  congrArg String.mk h

theorem startsWith_append : ∀ p t : List Char, startsWith p (p ++ t) = true
  | [], _ => rfl
  | p :: ps, t => by simp [startsWith, startsWith_append ps t]

theorem startsWith_iff : ∀ p l : List Char, startsWith p l = true → l = p ++ l.drop p.length
  | [], l, _ => rfl
  | p :: ps, [], h => by simp [startsWith] at h
  | p :: ps, c :: cs, h => by
      simp only [startsWith, Bool.and_eq_true, beq_iff_eq] at h
      obtain ⟨rfl, h2⟩ := h
      simpa using startsWith_iff ps cs h2

theorem kvLine_data (key v : String) : (kvLine key v).data = keyPat key ++ v.data := by
  have h : (": " : String).data = [':', ' '] := rfl
  simp [kvLine, keyPat, String.data_append, h, List.append_assoc]

theorem keyValue_kvLine (key v : String) : keyValue key (kvLine key v) = some v := by
  unfold keyValue
  rw [kvLine_data, if_pos (startsWith_append _ _), List.drop_left]

theorem keyValue_some {key line v : String} (h : keyValue key line = some v) :
    line = kvLine key v := by
  unfold keyValue at h
  split at h
  · rename_i hsw
    have hline := startsWith_iff _ _ hsw
    simp only [Option.some.injEq] at h
    apply stringDataEq
    rw [kvLine_data, ← h]
    exact hline
  · exact absurd h (by simp)

theorem keyValue_entryID_skipLine (skip : Bool) :
    keyValue EntryIDKey (skipLine skip) = none := by
  cases skip <;> decide

/-- Parse the `true`/`false` literal of a skip line. -/
def parseBoolStr : String → Except RSLError Bool
  | "true" => .ok true
  | "false" => .ok false
  | _ => .error .invalidEntry

/-- Modelled from the spec: the reference-entry arm of the parser
(`internal/rsl`, not under src/).  After the header and blank line, the
schema requires the `ref` line and the `targetID` line, in order; anything
else is an invalid entry. -/
def parseReferenceEntryLines (id : Hash) (rest : List String) : Except RSLError Entry :=
  match rest with
  | [l1, l2] =>
      match keyValue RefKey l1, keyValue TargetIDKey l2 with
      | some name, some hex =>
          match NewHash hex with
          | .ok t => .ok (.referenceEntry id name t)
          | .error e => .error e
      | _, _ => .error .invalidEntry
  | _ => .error .invalidEntry

/-- Modelled from the spec: the annotation arm of the parser
(`internal/rsl`, not under src/).  Consumes one or more `entryID` lines
(order preserved), then the `skip` line, then either nothing or the
three-line base64 message trailer; anything else is an invalid entry. -/
def parseAnnotationRest (id : Hash) (acc : List Hash) : List String → Except RSLError Entry
  | [] => .error .invalidEntry
  | line :: rest =>
      match keyValue EntryIDKey line with
      | some hex =>
          match NewHash hex with
          | .ok h => parseAnnotationRest id (acc ++ [h]) rest
          | .error e => .error e
      | none =>
          match keyValue SkipKey line with
          | some b =>
              match parseBoolStr b with
              | .ok skip =>
                  if acc = [] then .error .invalidEntry
                  else
                    match rest with
                    | [] => .ok (.annotationEntry id acc skip [])
                    | [l1, m, l2] =>
                        if l1 = BeginMessage ∧ l2 = EndMessage then
                          match decodeB64Line m with
                          | some msg => .ok (.annotationEntry id acc skip msg)
                          | none => .error .invalidEntry
                        else .error .invalidEntry
                    | _ => .error .invalidEntry
              | .error e => .error e
          | none => .error .invalidEntry

/-- Modelled from the spec: the parse contract of §4.2 (`parseRSLEntryText`
of `internal/rsl`, not under src/).  Given `(ID, message lines)`, a valid
message must start with a recognized header on its own line, followed by a
blank line, followed by key/value lines conforming to the variant's schema;
missing required keys or unknown headers yield `invalidEntry`.  Partial
entries are never produced: the result is either a complete entry or an
error. -/
def parseRSLEntryText (id : Hash) (lines : List String) : Except RSLError Entry :=
  match lines with
  | header :: blank :: rest =>
      if blank = "" then
        if header = ReferenceEntryHeader then parseReferenceEntryLines id rest
        else if header = AnnotationEntryHeader then parseAnnotationRest id [] rest
        else .error .invalidEntry
      else .error .invalidEntry
  | _ => .error .invalidEntry

/-- A validly constructed entry: the reference name fits on one line, hashes
are in printable hex form, an annotation refers to at least one entry, and
message content is made of bytes. -/
def ValidEntry : Entry → Prop
  | .referenceEntry _ refName targetID =>
      refName.data.all (fun c => c != '\n') = true ∧ isValidHexHash targetID = true
  | .annotationEntry _ ids _ msg =>
      ids ≠ [] ∧ (∀ i ∈ ids, isValidHexHash i = true) ∧ (∀ x ∈ msg, x < 256)

theorem parseAnnotationRest_appendIDs (id : Hash) (skip : Bool) (msg : List Nat)
    (hmsg : ∀ x ∈ msg, x < 256) :
    ∀ (ids : List Hash) (acc : List Hash), (∀ i ∈ ids, isValidHexHash i = true) →
      acc ++ ids ≠ [] →
      parseAnnotationRest id acc (ids.map (kvLine EntryIDKey) ++ skipLine skip :: msgBlock msg)
        = .ok (.annotationEntry id (acc ++ ids) skip msg)
  | [], acc, _, hne => by
      simp only [List.map_nil, List.nil_append, List.append_nil] at hne ⊢
      have hskip : keyValue SkipKey (skipLine skip) = some (if skip then "true" else "false") :=
        keyValue_kvLine _ _
      have hbool : parseBoolStr (if skip then "true" else "false") = Except.ok skip := by
        cases skip <;> rfl
      by_cases hm : msg = []
      · subst hm
        simp only [parseAnnotationRest, keyValue_entryID_skipLine, hskip, hbool, if_neg hne,
          show msgBlock [] = [] from rfl]
      · simp only [parseAnnotationRest, keyValue_entryID_skipLine, hskip, hbool, if_neg hne,
          show msgBlock msg = [BeginMessage, encodeB64Line msg, EndMessage] from by
            simp [msgBlock, hm],
          eq_self_iff_true, and_self, if_true, decodeB64Line_encodeB64Line msg hmsg]
  | i :: ids, acc, hids, _ => by
      have hi : isValidHexHash i = true := hids i (by simp)
      have ih := parseAnnotationRest_appendIDs id skip msg hmsg ids (acc ++ [i])
        (fun j hj => hids j (by simp [hj])) (by simp)
      simp only [List.map_cons, List.cons_append]
      simp only [parseAnnotationRest, keyValue_kvLine, NewHash_valid hi, ih]
      simp

/-- C3 helper: the parser recovers a valid entry from its own serialization. -/
theorem parse_createCommitMessage (e : Entry) (h : ValidEntry e) :
    parseRSLEntryText e.getID (createCommitMessage e) = .ok e := by
  cases e with
  | referenceEntry id refName targetID =>
      obtain ⟨_, hhex⟩ := h
      simp only [createCommitMessage, Entry.getID, parseRSLEntryText, parseReferenceEntryLines,
        keyValue_kvLine, NewHash_valid hhex, eq_self_iff_true, if_true]
  | annotationEntry id ids skip msg =>
      obtain ⟨hne, hids, hmsg⟩ := h
      have hmain := parseAnnotationRest_appendIDs id skip msg hmsg ids [] hids
        (by simpa using hne)
      simp only [createCommitMessage, Entry.getID, List.cons_append, List.nil_append,
        List.append_assoc, List.singleton_append]
      simp only [parseRSLEntryText, eq_self_iff_true, if_true,
        eq_false (show ¬(AnnotationEntryHeader = ReferenceEntryHeader) from by decide),
        if_false]
      simpa using hmain

/-! ### Parser soundness (C8 machinery) -/

theorem NewHash_ok {s t : String} (h : NewHash s = .ok t) :
    t = s ∧ isValidHexHash s = true := by
  unfold NewHash at h
  split at h
  · rename_i hv
    injection h with h2
    exact ⟨h2.symm, hv⟩
  · exact absurd h (by simp)

theorem NewHash_error {s : String} {e : RSLError} (h : NewHash s = .error e) :
    e = .invalidEntry := by
  unfold NewHash at h
  split at h
  · exact absurd h (by simp)
  · injection h with h2
    exact h2.symm

theorem parseBoolStr_ok {b : String} {skip : Bool} (h : parseBoolStr b = .ok skip) :
    b = (if skip then "true" else "false") := by
  unfold parseBoolStr at h
  split at h <;> simp_all

theorem parseBoolStr_error {b : String} {e : RSLError} (h : parseBoolStr b = .error e) :
    e = .invalidEntry := by
  unfold parseBoolStr at h
  split at h <;> simp_all

/-- The shape required of a valid commit message by the parse contract
(§4.2): a recognized header on its own line, a blank line, then key/value
lines conforming to the variant's schema — the `ref` and `targetID` lines
for a reference entry; one or more `entryID` lines, the `skip` line, and an
optional well-formed message trailer for an annotation. -/
def ValidMessageLines (lines : List String) : Prop :=
  (∃ name hex, lines = [ReferenceEntryHeader, "", kvLine RefKey name, kvLine TargetIDKey hex]
      ∧ isValidHexHash hex = true)
  ∨ (∃ ids skip block,
      lines = AnnotationEntryHeader :: "" :: (ids.map (kvLine EntryIDKey) ++ skipLine skip :: block)
      ∧ ids ≠ [] ∧ (∀ i ∈ ids, isValidHexHash i = true)
      ∧ (block = [] ∨ ∃ m msg, block = [BeginMessage, m, EndMessage] ∧ decodeB64Line m = some msg))

theorem parseReferenceEntryLines_ok : ∀ (rest : List String) (id : Hash) (e : Entry),
    parseReferenceEntryLines id rest = .ok e →
    ∃ name hex, rest = [kvLine RefKey name, kvLine TargetIDKey hex] ∧ isValidHexHash hex = true := by
  intro rest id e h
  rcases rest with _ | ⟨l1, _ | ⟨l2, _ | ⟨l3, t⟩⟩⟩
  · simp [parseReferenceEntryLines] at h
  · simp [parseReferenceEntryLines] at h
  · cases hk1 : keyValue RefKey l1 with
    | none => simp [parseReferenceEntryLines, hk1] at h
    | some name =>
        cases hk2 : keyValue TargetIDKey l2 with
        | none => simp [parseReferenceEntryLines, hk1, hk2] at h
        | some hex =>
            cases hnh : NewHash hex with
            | error e2 => simp [parseReferenceEntryLines, hk1, hk2, hnh] at h
            | ok t =>
                obtain ⟨_, hvalid⟩ := NewHash_ok hnh
                exact ⟨name, hex, by rw [keyValue_some hk1, keyValue_some hk2], hvalid⟩
  · simp [parseReferenceEntryLines] at h

theorem parseAnnotationRest_ok : ∀ (rest : List String) (id : Hash) (acc : List Hash) (e : Entry),
    parseAnnotationRest id acc rest = .ok e →
    ∃ ids skip block, rest = ids.map (kvLine EntryIDKey) ++ skipLine skip :: block
      ∧ (∀ i ∈ ids, isValidHexHash i = true) ∧ acc ++ ids ≠ []
      ∧ (block = [] ∨ ∃ m msg, block = [BeginMessage, m, EndMessage] ∧ decodeB64Line m = some msg)
  | [], id, acc, e => by
      intro h
      simp [parseAnnotationRest] at h
  | line :: rest, id, acc, e => by
      intro h
      cases hk1 : keyValue EntryIDKey line with
      | some hex =>
          cases hnh : NewHash hex with
          | error e2 => simp [parseAnnotationRest, hk1, hnh] at h
          | ok hh =>
              simp only [parseAnnotationRest, hk1, hnh] at h
              obtain ⟨hEq, hvalid⟩ := NewHash_ok hnh
              rw [hEq] at h
              obtain ⟨ids, skip, block, hrest, hvids, _, hblock⟩ :=
                parseAnnotationRest_ok rest id (acc ++ [hex]) e h
              refine ⟨hex :: ids, skip, block, ?_, ?_, by simp, hblock⟩
              · rw [keyValue_some hk1, hrest]
                simp
              · intro i hi
                rcases List.mem_cons.mp hi with rfl | hi
                · exact hvalid
                · exact hvids i hi
      | none =>
          cases hk2 : keyValue SkipKey line with
          | none => simp [parseAnnotationRest, hk1, hk2] at h
          | some b =>
              cases hb : parseBoolStr b with
              | error e2 => simp [parseAnnotationRest, hk1, hk2, hb] at h
              | ok skip =>
                  by_cases hacc : acc = []
                  · simp [parseAnnotationRest, hk1, hk2, hb, hacc] at h
                  · have hline : line = skipLine skip := by
                      rw [keyValue_some hk2, parseBoolStr_ok hb]
                      rfl
                    rcases rest with _ | ⟨l1, _ | ⟨m, _ | ⟨l2, _ | ⟨l4, t⟩⟩⟩⟩
                    · exact ⟨[], skip, [], by simp [hline], by simp,
                        by simpa using hacc, Or.inl rfl⟩
                    · simp [parseAnnotationRest, hk1, hk2, hb, if_neg hacc] at h
                    · simp [parseAnnotationRest, hk1, hk2, hb, if_neg hacc] at h
                    · by_cases hbe : l1 = BeginMessage ∧ l2 = EndMessage
                      · cases hd : decodeB64Line m with
                        | none =>
                            simp [parseAnnotationRest, hk1, hk2, hb, if_neg hacc,
                              if_pos hbe, hd] at h
                        | some msg =>
                            exact ⟨[], skip, [BeginMessage, m, EndMessage],
                              by simp [hline, hbe.1, hbe.2], by simp,
                              by simpa using hacc, Or.inr ⟨m, msg, rfl, hd⟩⟩
                      · simp [parseAnnotationRest, hk1, hk2, hb, if_neg hacc,
                          if_neg hbe] at h
                    · simp [parseAnnotationRest, hk1, hk2, hb, if_neg hacc] at h

/-- C8 helper: a successfully parsed message has the valid shape. -/
theorem parseRSLEntryText_ok {id : Hash} {lines : List String} {e : Entry}
    (h : parseRSLEntryText id lines = .ok e) : ValidMessageLines lines := by
  rcases lines with _ | ⟨header, _ | ⟨blank, rest⟩⟩
  · simp [parseRSLEntryText] at h
  · simp [parseRSLEntryText] at h
  · by_cases hblank : blank = ""
    · subst hblank
      by_cases hh1 : header = ReferenceEntryHeader
      · subst hh1
        simp only [parseRSLEntryText, if_pos rfl] at h
        obtain ⟨name, hex, hrest, hvalid⟩ := parseReferenceEntryLines_ok rest id e h
        exact Or.inl ⟨name, hex, by rw [hrest], hvalid⟩
      · by_cases hh2 : header = AnnotationEntryHeader
        · subst hh2
          simp only [parseRSLEntryText, if_pos rfl, if_neg hh1] at h
          obtain ⟨ids, skip, block, hrest, hvids, hne, hblock⟩ :=
            parseAnnotationRest_ok rest id [] e h
          exact Or.inr ⟨ids, skip, block, by rw [hrest], by simpa using hne, hvids, hblock⟩
        · simp only [parseRSLEntryText, if_pos rfl, if_neg hh1, if_neg hh2] at h
          exact absurd h (by simp)
    · simp only [parseRSLEntryText, if_neg hblank] at h
      exact absurd h (by simp)

theorem parseAnnotationRest_shape : ∀ (rest : List String) (id : Hash) (acc : List Hash),
    parseAnnotationRest id acc rest = .error .invalidEntry ∨
      ∃ e, parseAnnotationRest id acc rest = .ok e
  | [], id, acc => Or.inl rfl
  | line :: rest, id, acc => by
      cases hk1 : keyValue EntryIDKey line with
      | some hex =>
          cases hnh : NewHash hex with
          | error e2 =>
              exact Or.inl (by simp [parseAnnotationRest, hk1, hnh, NewHash_error hnh])
          | ok hh =>
              have ih := parseAnnotationRest_shape rest id (acc ++ [hh])
              simpa only [parseAnnotationRest, hk1, hnh] using ih
      | none =>
          cases hk2 : keyValue SkipKey line with
          | none => exact Or.inl (by simp [parseAnnotationRest, hk1, hk2])
          | some b =>
              cases hb : parseBoolStr b with
              | error e2 =>
                  exact Or.inl (by simp [parseAnnotationRest, hk1, hk2, hb, parseBoolStr_error hb])
              | ok skip =>
                  by_cases hacc : acc = []
                  · exact Or.inl (by simp [parseAnnotationRest, hk1, hk2, hb, hacc])
                  · rcases rest with _ | ⟨l1, _ | ⟨m, _ | ⟨l2, _ | ⟨l4, t⟩⟩⟩⟩
                    · exact Or.inr ⟨Entry.annotationEntry id acc skip [],
                        by simp [parseAnnotationRest, hk1, hk2, hb, if_neg hacc]⟩
                    · exact Or.inl (by simp [parseAnnotationRest, hk1, hk2, hb, if_neg hacc])
                    · exact Or.inl (by simp [parseAnnotationRest, hk1, hk2, hb, if_neg hacc])
                    · by_cases hbe : l1 = BeginMessage ∧ l2 = EndMessage
                      · cases hd : decodeB64Line m with
                        | none =>
                            exact Or.inl (by simp [parseAnnotationRest, hk1, hk2, hb,
                              if_neg hacc, if_pos hbe, hd])
                        | some msg =>
                            exact Or.inr ⟨Entry.annotationEntry id acc skip msg,
                              by simp [parseAnnotationRest, hk1, hk2, hb,
                                if_neg hacc, if_pos hbe, hd]⟩
                      · exact Or.inl (by simp [parseAnnotationRest, hk1, hk2, hb,
                          if_neg hacc, if_neg hbe])
                    · exact Or.inl (by simp [parseAnnotationRest, hk1, hk2, hb, if_neg hacc])

theorem parseReferenceEntryLines_shape (rest : List String) (id : Hash) :
    parseReferenceEntryLines id rest = .error .invalidEntry ∨
      ∃ e, parseReferenceEntryLines id rest = .ok e := by
  rcases rest with _ | ⟨l1, _ | ⟨l2, _ | ⟨l3, t⟩⟩⟩
  · exact Or.inl rfl
  · exact Or.inl rfl
  · cases hk1 : keyValue RefKey l1 with
    | none => exact Or.inl (by simp [parseReferenceEntryLines, hk1])
    | some name =>
        cases hk2 : keyValue TargetIDKey l2 with
        | none => exact Or.inl (by simp [parseReferenceEntryLines, hk1, hk2])
        | some hex =>
            cases hnh : NewHash hex with
            | error e2 =>
                exact Or.inl (by simp [parseReferenceEntryLines, hk1, hk2, hnh,
                  NewHash_error hnh])
            | ok t2 =>
                exact Or.inr ⟨Entry.referenceEntry id name t2,
                  by simp [parseReferenceEntryLines, hk1, hk2, hnh]⟩
  · exact Or.inl rfl

/-- C8 helper: the parser either rejects with `invalidEntry` or produces a
complete entry; no other outcome exists. -/
theorem parseRSLEntryText_shape (id : Hash) (lines : List String) :
    parseRSLEntryText id lines = .error .invalidEntry ∨
      ∃ e, parseRSLEntryText id lines = .ok e := by
  rcases lines with _ | ⟨header, _ | ⟨blank, rest⟩⟩
  · exact Or.inl rfl
  · exact Or.inl rfl
  · by_cases hblank : blank = ""
    · subst hblank
      by_cases hh1 : header = ReferenceEntryHeader
      · subst hh1
        have := parseReferenceEntryLines_shape rest id
        simpa only [parseRSLEntryText, if_pos rfl] using this
      · by_cases hh2 : header = AnnotationEntryHeader
        · subst hh2
          have := parseAnnotationRest_shape rest id []
          simpa only [parseRSLEntryText, if_pos rfl, if_neg hh1] using this
        · exact Or.inl (by simp [parseRSLEntryText, if_neg hh1, if_neg hh2])
    · exact Or.inl (by simp [parseRSLEntryText, if_neg hblank])

/-! ### Serializer shape lemmas (C9 machinery) -/

theorem entryIDLine_ne_begin (i : String) : kvLine EntryIDKey i ≠ BeginMessage := by
  intro h
  have hd := congrArg String.data h
  rw [kvLine_data,
    show keyPat EntryIDKey = 'e' :: ['n', 't', 'r', 'y', 'I', 'D', ':', ' '] from rfl,
    show BeginMessage.data = '-' :: "----BEGIN MESSAGE-----".data from rfl,
    List.cons_append] at hd
  simp at hd

theorem skipLine_ne_begin (skip : Bool) : skipLine skip ≠ BeginMessage := by
  cases skip <;> decide

/-! ### RSL log model (§4.3)

The log is the chain of entries reachable from the RSL tip, newest first:
the head is the tip, each entry's successor in the list is its parent. -/

/-- Modelled from the spec: the RSL chain (§3 invariant 1), newest first. -/
abbrev RSLLog := List Entry

/-- Whether an annotation voids the entry with the given id: it must be an
`AnnotationEntry` with `Skip = true` referring to that id. -/
def annotationSkips (a : Entry) (h : Hash) : Bool :=
  match a with
  | .annotationEntry _ ids skip _ => skip && ids.contains h
  | _ => false

/-- Modelled from the spec: an entry is `Skipped` when at least one
annotation with `Skip = true` anywhere in the chain refers to it (§4.3);
there is no un-skip. -/
def isSkipped (log : RSLLog) (h : Hash) : Bool :=
  log.any (fun a => annotationSkips a h)

/-- Whether an annotation refers to the given entry id (`RefersTo`);
reference entries refer to nothing. -/
def Entry.refersTo (a : Entry) (h : Hash) : Bool :=
  match a with
  | .annotationEntry _ ids _ _ => ids.contains h
  | _ => false

/-- All annotations anywhere in the chain that refer to the given entry id. -/
def annotationsFor (log : RSLLog) (h : Hash) : List Entry :=
  log.filter (fun a => a.refersTo h)

/-- Modelled from the spec: the walk of
`GetLatestUnskippedReferenceEntryForRef` (§4.3, not under src/): traverse
newest→oldest, buffering annotations observed on the way; return the first
`ReferenceEntry` whose name matches and that is not skipped anywhere in the
full chain, together with the buffered (strictly newer) annotations
referring to it. -/
def getLatestUnskippedAux (full : RSLLog) (refName : String) (anns : List Entry) :
    RSLLog → Except RSLError (Entry × List Entry)
  | [] => .error .rslEntryNotFound
  | e :: rest =>
      match e with
      | .annotationEntry _ _ _ _ => getLatestUnskippedAux full refName (anns ++ [e]) rest
      | .referenceEntry id rn _ =>
          if rn = refName ∧ isSkipped full id = false then
            .ok (e, anns.filter (fun a => a.refersTo id))
          else getLatestUnskippedAux full refName anns rest

/-- Modelled from the spec: `GetLatestUnskippedReferenceEntryForRef`
(§4.3, not under src/), the walk started at the tip. -/
def GetLatestUnskippedReferenceEntryForRef (log : RSLLog) (refName : String) :
    Except RSLError (Entry × List Entry) :=
  getLatestUnskippedAux log refName [] log

theorem getLatestUnskippedAux_ok : ∀ (l : RSLLog) (full : RSLLog) (refName : String)
    (anns : List Entry) (r : Entry) (as2 : List Entry),
    getLatestUnskippedAux full refName anns l = .ok (r, as2) →
    isSkipped full r.getID = false
  | [], _, _, _, _, _ => by intro h; simp [getLatestUnskippedAux] at h
  | e :: rest, full, refName, anns, r, as2 => by
      intro h
      match e with
      | .annotationEntry aid ids sk m =>
          simp only [getLatestUnskippedAux] at h
          exact getLatestUnskippedAux_ok rest full refName
            (anns ++ [Entry.annotationEntry aid ids sk m]) r as2 h
      | .referenceEntry id rn t =>
          simp only [getLatestUnskippedAux] at h
          by_cases hcond : rn = refName ∧ isSkipped full id = false
          · rw [if_pos hcond] at h
            injection h with h2
            obtain ⟨h3, _⟩ := Prod.mk.inj h2
            rw [← h3]
            exact hcond.2
          · rw [if_neg hcond] at h
            exact getLatestUnskippedAux_ok rest full refName anns r as2 h

theorem getLatestUnskippedAux_allSkipped : ∀ (l : RSLLog) (full : RSLLog) (refName : String)
    (anns : List Entry),
    (∀ id rn t, Entry.referenceEntry id rn t ∈ l → rn = refName → isSkipped full id = true) →
    getLatestUnskippedAux full refName anns l = .error .rslEntryNotFound
  | [], _, _, _, _ => rfl
  | e :: rest, full, refName, anns, hall => by
      match e with
      | .annotationEntry aid ids sk m =>
          simp only [getLatestUnskippedAux]
          exact getLatestUnskippedAux_allSkipped rest full refName
            (anns ++ [Entry.annotationEntry aid ids sk m])
            (fun id rn t hm => hall id rn t (List.mem_cons_of_mem _ hm))
      | .referenceEntry id rn t =>
          have hcond : ¬(rn = refName ∧ isSkipped full id = false) := by
            rintro ⟨h1, h2⟩
            have := hall id rn t (List.mem_cons_self _ _) h1
            rw [this] at h2
            exact absurd h2 (by simp)
          simp only [getLatestUnskippedAux]
          rw [if_neg hcond]
          exact getLatestUnskippedAux_allSkipped rest full refName anns
            (fun id2 rn2 t2 hm => hall id2 rn2 t2 (List.mem_cons_of_mem _ hm))

theorem isSkipped_of_skipAnn {log : RSLLog} {id : Hash}
    (h : ∃ aid ids msg, Entry.annotationEntry aid ids true msg ∈ log ∧ id ∈ ids) :
    isSkipped log id = true := by
  obtain ⟨aid, ids, msg, hmem, hid⟩ := h
  rw [isSkipped, List.any_eq_true]
  refine ⟨Entry.annotationEntry aid ids true msg, hmem, ?_⟩
  simp [annotationSkips, hid]

theorem getLatestUnskipped_cons_ref (log : RSLLog) (id : Hash) (rn : String) (t : Hash)
    (hfresh : isSkipped log id = false) :
    GetLatestUnskippedReferenceEntryForRef (Entry.referenceEntry id rn t :: log) rn
      = .ok (Entry.referenceEntry id rn t, []) := by
  have hsk : isSkipped (Entry.referenceEntry id rn t :: log) id = false := by
    simpa [isSkipped, annotationSkips] using hfresh
  unfold GetLatestUnskippedReferenceEntryForRef
  simp only [getLatestUnskippedAux]
  simp [hsk]

/-- Whether a reference entry covers a commit: its target equals the commit
or has it as an ancestor in the underlying object graph. -/
def entryCovers (knows : Hash → Hash → Bool) (e : Entry) (c : Hash) : Bool :=
  match e with
  | .referenceEntry _ _ target => target == c || knows target c
  | _ => false

/-- Modelled from the spec: the walk of `GetFirstReferenceEntryForCommit`
(§4.3, not under src/): newest→oldest, returning the oldest covering
reference entry, so an older match takes precedence over a newer one. -/
def firstRefEntryForCommitAux (knows : Hash → Hash → Bool) (c : Hash) :
    RSLLog → Option Entry
  | [] => none
  | e :: rest =>
      match firstRefEntryForCommitAux knows c rest with
      | some r => some r
      | none => if entryCovers knows e c then some e else none

theorem firstRefEntryForCommitAux_none : ∀ (l : RSLLog) (knows : Hash → Hash → Bool) (c : Hash),
    firstRefEntryForCommitAux knows c l = none ↔ ∀ e ∈ l, entryCovers knows e c = false
  | [], _, _ => by simp [firstRefEntryForCommitAux]
  | e :: rest, knows, c => by
      constructor
      · intro h
        cases hr : firstRefEntryForCommitAux knows c rest with
        | some r => simp [firstRefEntryForCommitAux, hr] at h
        | none =>
            have hrest := (firstRefEntryForCommitAux_none rest knows c).mp hr
            simp only [firstRefEntryForCommitAux, hr] at h
            intro e2 he2
            rcases List.mem_cons.mp he2 with rfl | he2
            · by_contra hc
              rw [show entryCovers knows e2 c = true from by
                  cases hcv : entryCovers knows e2 c
                  · exact absurd hcv hc
                  · rfl] at h
              simp at h
            · exact hrest e2 he2
      · intro h
        have hrest := (firstRefEntryForCommitAux_none rest knows c).mpr
          (fun e2 he2 => h e2 (List.mem_cons_of_mem _ he2))
        simp [firstRefEntryForCommitAux, hrest, h e (List.mem_cons_self _ _)]

theorem firstRefEntryForCommitAux_some : ∀ (l : RSLLog) (knows : Hash → Hash → Bool)
    (c : Hash) (r : Entry),
    firstRefEntryForCommitAux knows c l = some r →
    entryCovers knows r c = true
      ∧ ∃ newer older, l = newer ++ r :: older ∧ ∀ e ∈ older, entryCovers knows e c = false
  | [], _, _, _ => by intro h; simp [firstRefEntryForCommitAux] at h
  | e :: rest, knows, c, r => by
      intro h
      cases hr : firstRefEntryForCommitAux knows c rest with
      | some r0 =>
          simp only [firstRefEntryForCommitAux, hr] at h
          injection h with h2
          obtain ⟨hcv, newer, older, hsplit, hold⟩ :=
            firstRefEntryForCommitAux_some rest knows c r0 hr
          rw [← h2]
          exact ⟨hcv, e :: newer, older, by rw [hsplit]; rfl, hold⟩
      | none =>
          simp only [firstRefEntryForCommitAux, hr] at h
          by_cases hcv : entryCovers knows e c = true
          · rw [if_pos hcv] at h
            injection h with h2
            rw [← h2]
            exact ⟨hcv, [], rest, rfl, (firstRefEntryForCommitAux_none rest knows c).mp hr⟩
          · rw [if_neg hcv] at h
            exact absurd h (by simp)

/-! ### Repository state and façade (§4.5)

The façade operations of `internal/repository/rsl.go` (under src/) are
translated over an abstract repository state: `refs` resolves a reference to
its target (`GetReference`, zero hash when absent), `rsl` is the RSL chain,
`knows` is the object graph's ancestry test (`KnowsCommit x y` = commit `x`
has `y` as an ancestor), and `absRef` canonicalizes a reference shorthand
(`AbsoluteReference`).  Because entry ids are content addresses assigned by
the object store, appending takes the fresh commit id as an explicit
argument. -/

/-- Abstract repository state for the façade and sync operations. -/
structure RepoState where
  refs : String → Hash
  rsl : RSLLog
  knows : Hash → Hash → Bool
  absRef : String → String

/-- Modelled from the spec: `GetEntry` (§4.3, not under src/): resolve a
commit id to the RSL entry it carries, or `rslEntryNotFound`. -/
def GetEntry (st : RepoState) (id : Hash) : Except RSLError Entry :=
  match st.rsl.find? (fun e => e.getID == id) with
  | some e => .ok e
  | none => .error .rslEntryNotFound

/-- Modelled from the spec: `GetFirstReferenceEntryForCommit` (§4.3, not
under src/): the oldest `ReferenceEntry` whose target equals the commit or
has it as an ancestor, together with the annotations referring to it;
`noRecordOfCommit` when no entry covers it. -/
def GetFirstReferenceEntryForCommit (st : RepoState) (c : Hash) :
    Except RSLError (Entry × List Entry) :=
  match firstRefEntryForCommitAux st.knows c st.rsl with
  | some e => .ok (e, annotationsFor st.rsl e.getID)
  | none => .error .noRecordOfCommit

/-- Translation of `isDuplicateEntry` (src/internal/repository/rsl.go lines
192–205): the latest unskipped entry for the ref is compared against the
target; `rslEntryNotFound` means no duplicate.  The annotation arm is
unreachable because the query only returns reference entries. -/
def isDuplicateEntry (st : RepoState) (refName : String) (targetID : Hash) : Bool :=
  match GetLatestUnskippedReferenceEntryForRef st.rsl refName with
  | .error _ => false
  | .ok (e, _) =>
      match e with
      | .referenceEntry _ _ t => t == targetID
      | .annotationEntry _ _ _ _ => false

/-- Modelled from the spec: `Append` (§4.3, not under src/) for a reference
entry — commit the entry as the new tip of the RSL ref, with the previous
tip as parent; `newID` is the content address the object store assigns. -/
def commitReferenceEntry (st : RepoState) (refName : String) (targetID : Hash)
    (newID : Hash) : RepoState :=
  { st with rsl := Entry.referenceEntry newID refName targetID :: st.rsl }

/-- Translation of `RecordRSLEntryForReference` (src/internal/repository/
rsl.go lines 25–52): canonicalize the reference, read its current target,
skip the append when `isDuplicateEntry` reports the latest unskipped entry
already has that target, otherwise append a new reference entry. -/
def RecordRSLEntryForReference (st : RepoState) (refName : String) (newID : Hash) :
    RepoState :=
  let absRefName := st.absRef refName
  let refTip := st.refs absRefName
  if isDuplicateEntry st absRefName refTip then st
  else commitReferenceEntry st absRefName refTip newID

/-- Parse a list of id strings (`gitinterface.NewHash` per element), failing
on the first malformed one. -/
def parseHashes : List String → Except RSLError (List Hash)
  | [] => .ok []
  | s :: rest =>
      match NewHash s with
      | .ok h =>
          match parseHashes rest with
          | .ok hs => .ok (h :: hs)
          | .error e => .error e
      | .error e => .error e

/-- Modelled from the spec and the repository's own test: the existence
check run by `AnnotationEntry.Commit` (`internal/rsl`, not under src/).
Invariant 3 of §3 says the core does not re-verify referred ids on append,
but the test TestRecordRSLAnnotation (src/unnamed/part_000 lines 130–137) shows
annotating a non-existent entry fails with `ErrRSLEntryNotFound`, so the
commit path resolves every referred id via `GetEntry` first. -/
def checkEntriesExist (st : RepoState) : List Hash → Except RSLError Unit
  | [] => .ok ()
  | id :: rest =>
      match GetEntry st id with
      | .ok _ => checkEntriesExist st rest
      | .error e => .error e

/-- Translation of RecordRSLAnnotation (src/internal/repository/rsl.go
lines 83–98) composed with the annotation commit path: parse each id, check
the referred entries exist (see `checkEntriesExist`), then commit the
annotation as the new tip. -/
def RecordRSLAnnotation (st : RepoState) (rslEntryIDs : List String) (skip : Bool)
    (message : List Nat) (newID : Hash) : Except RSLError RepoState :=
  match parseHashes rslEntryIDs with
  | .error e => .error e
  | .ok hashes =>
      match checkEntriesExist st hashes with
      | .error e => .error e
      | .ok _ => .ok { st with rsl := Entry.annotationEntry newID hashes skip message :: st.rsl }

theorem GetEntry_error {st : RepoState} {id : Hash} {e : RSLError}
    (h : GetEntry st id = .error e) : e = .rslEntryNotFound := by
  unfold GetEntry at h
  cases hf : st.rsl.find? (fun e2 => e2.getID == id) with
  | some e2 => rw [hf] at h; exact absurd h (by simp)
  | none => rw [hf] at h; injection h with h2; exact h2.symm

theorem parseHashes_valid : ∀ l : List String, (∀ s ∈ l, isValidHexHash s = true) →
    parseHashes l = .ok l
  | [], _ => rfl
  | s :: rest, h => by
      have hs : isValidHexHash s = true := h s (by simp)
      have ih := parseHashes_valid rest (fun s2 hs2 => h s2 (by simp [hs2]))
      simp only [parseHashes, NewHash_valid hs, ih]

theorem checkEntriesExist_ok (st : RepoState) : ∀ l : List Hash,
    (∀ id ∈ l, GetEntry st id ≠ .error .rslEntryNotFound) →
    checkEntriesExist st l = .ok ()
  | [], _ => rfl
  | id :: rest, h => by
      cases hg : GetEntry st id with
      | error e =>
          exact absurd (GetEntry_error hg ▸ hg) (h id (by simp))
      | ok e =>
          have ih := checkEntriesExist_ok st rest (fun id2 hid2 => h id2 (by simp [hid2]))
          simp only [checkEntriesExist, hg, ih]

theorem checkEntriesExist_error (st : RepoState) : ∀ l : List Hash,
    (∃ id ∈ l, GetEntry st id = .error .rslEntryNotFound) →
    checkEntriesExist st l = .error .rslEntryNotFound
  | [], h => by simp at h
  | id :: rest, h => by
      cases hg : GetEntry st id with
      | error e =>
          rw [GetEntry_error hg] at hg
          simp only [checkEntriesExist, hg]
      | ok e =>
          obtain ⟨id2, hmem, hfail⟩ := h
          rcases List.mem_cons.mp hmem with rfl | hmem2
          · rw [hg] at hfail
            exact absurd hfail (by simp)
          · have ih := checkEntriesExist_error st rest ⟨id2, hmem2, hfail⟩
            simp only [checkEntriesExist, hg, ih]

/-! ### Sync protocol (§4.4)

`CheckRemoteRSLForUpdates`, `PushRSL` and `PullRSL` are translated from
src/internal/repository/rsl.go; the transport itself (`FetchRefSpec`,
`Push`, `Fetch` of `gitinterface`, not under src/) is modelled from the
spec: a fetch either succeeds with the remote's RSL tip, finds the remote
repository entirely empty, or fails; pushes and fetches of the RSL ref are
fast-forward-only. -/

/-- The RSL reference (`rsl.Ref`). -/
def RSLRef : String := "refs/gittuf/reference-state-log"

/-- The per-remote tracker reference (`rsl.RemoteTrackerRef`). -/
def RemoteTrackerRef (remoteName : String) : String :=
  "refs/gittuf/reference-state-log-remote/" ++ remoteName

/-- Write one reference in the repository state. -/
def setRef (st : RepoState) (name : String) (h : Hash) : RepoState :=
  { st with refs := fun r => if r = name then h else st.refs r }

/-- Modelled from the spec: the outcome of fetching the remote's RSL ref
(`FetchRefSpec`, not under src/): the remote's tip, the
`ErrEmptyRemoteRepository` condition, or an opaque transport failure. -/
inductive FetchResult where
  | success (tip : Hash)
  | emptyRemote
  | failure

/-- Translation of `CheckRemoteRSLForUpdates` (src/internal/repository/
rsl.go lines 107–168): fetch the remote RSL into the per-remote tracker ref
(writing it only on success), treat an entirely empty remote as "no
updates", then classify by tip equality and ancestry
(`KnowsCommit remote local` = the remote tip has the local tip as an
ancestor).  Returns the resulting repository state together with the
`(hasUpdates, hasDiverged)` classification. -/
def CheckRemoteRSLForUpdates (st : RepoState) (remoteName : String) (fetch : FetchResult) :
    RepoState × Except RSLError (Bool × Bool) :=
  let trackerRef := RemoteTrackerRef remoteName
  match fetch with
  | .emptyRemote => (st, .ok (false, false))
  | .failure => (st, .error .fetchFailed)
  | .success tip =>
      let st2 := setRef st trackerRef tip
      let remoteRefState := st2.refs trackerRef
      let localRefState := st2.refs RSLRef
      if localRefState = ZeroHash then (st2, .ok (true, false))
      else if remoteRefState = localRefState then (st2, .ok (false, false))
      else if st2.knows remoteRefState localRefState then (st2, .ok (true, false))
      else if st2.knows localRefState remoteRefState then (st2, .ok (false, false))
      else (st2, .ok (true, true))

/-- Errors of the push/pull wrappers: the transport rejections and the
stable sentinels attached by the façade (`ErrPushingRSL`, `ErrPullingRSL`). -/
inductive GitError where
  | pushRejected
  | pullRejected
  | errPushingRSL
  | errPullingRSL
  deriving DecidableEq

/-- Modelled from the spec: the transport's push of the RSL ref with
fast-forward-only semantics (`gitinterface.Push`, not under src/): accepted
when the remote has no tip yet, already has the same tip, or the pushed tip
has the remote tip as an ancestor; otherwise rejected. -/
def pushTransport (knows : Hash → Hash → Bool) (localTip remoteTip : Hash) :
    Except GitError Unit :=
  if remoteTip = ZeroHash ∨ remoteTip = localTip ∨ knows localTip remoteTip = true then .ok ()
  else .error .pushRejected

/-- Modelled from the spec: the transport's fetch of the RSL ref with
fast-forward-only semantics (`gitinterface.Fetch`, not under src/): accepted
when the local ref is unset, equal, or an ancestor of the remote tip, in
which case the local ref takes the remote tip; otherwise rejected. -/
def fetchTransport (knows : Hash → Hash → Bool) (localTip remoteTip : Hash) :
    Except GitError Hash :=
  if localTip = ZeroHash ∨ remoteTip = localTip ∨ knows remoteTip localTip = true then
    .ok remoteTip
  else .error .pullRejected

/-- Translation of `PushRSL` (src/internal/repository/rsl.go lines
170–179): push the RSL ref; any transport error is joined with the
`ErrPushingRSL` sentinel (`errors.Join` modelled as the list of joined
errors; matching a sentinel is membership in that list). -/
def PushRSL (knows : Hash → Hash → Bool) (localTip remoteTip : Hash) :
    Except (List GitError) Unit :=
  match pushTransport knows localTip remoteTip with
  | .ok _ => .ok ()
  | .error e => .error [.errPushingRSL, e]

/-- Translation of `PullRSL` (src/internal/repository/rsl.go lines
181–190): fetch the RSL ref fast-forward-only; any transport error is
joined with the `ErrPullingRSL` sentinel.  On success the local RSL tip is
the fetched remote tip. -/
def PullRSL (knows : Hash → Hash → Bool) (localTip remoteTip : Hash) :
    Except (List GitError) Hash :=
  match fetchTransport knows localTip remoteTip with
  | .ok tip => .ok tip
  | .error e => .error [.errPullingRSL, e]

/-- Whether a result fails with an error matching the given sentinel, in the
sense of `errors.Is` over a joined error. -/
def errorIs {α : Type} (r : Except (List GitError) α) (target : GitError) : Prop :=
  ∃ es, r = .error es ∧ target ∈ es

theorem setRef_same (st : RepoState) (name : String) (h : Hash) :
    (setRef st name h).refs name = h := by
  simp [setRef]

theorem setRef_other (st : RepoState) (name : String) (h : Hash) {r : String}
    (hne : r ≠ name) : (setRef st name h).refs r = st.refs r := by
  simp [setRef, hne]

theorem rslRef_ne_tracker (remoteName : String) : RSLRef ≠ RemoteTrackerRef remoteName := by
  intro h
  have hl : RSLRef.length = (RemoteTrackerRef remoteName).length := congrArg String.length h
  rw [show RSLRef.length = 31 from rfl] at hl
  unfold RemoteTrackerRef at hl
  rw [String.length_append,
    show ("refs/gittuf/reference-state-log-remote/" : String).length = 39 from rfl] at hl
  omega

theorem checkRemote_success_state (st : RepoState) (remoteName : String) (tip : Hash) :
    (CheckRemoteRSLForUpdates st remoteName (.success tip)).1
      = setRef st (RemoteTrackerRef remoteName) tip := by
  simp only [CheckRemoteRSLForUpdates]
  split_ifs <;> rfl

theorem setRef_knows (st : RepoState) (name : String) (h : Hash) :
    (setRef st name h).knows = st.knows := rfl

theorem checkRemote_success_result (st : RepoState) (remoteName : String) (tip : Hash) :
    (CheckRemoteRSLForUpdates st remoteName (.success tip)).2 =
      (if st.refs RSLRef = ZeroHash then .ok (true, false)
       else if tip = st.refs RSLRef then .ok (false, false)
       else if st.knows tip (st.refs RSLRef) then .ok (true, false)
       else if st.knows (st.refs RSLRef) tip then .ok (false, false)
       else .ok (true, true)) := by
  simp only [CheckRemoteRSLForUpdates, apply_ite Prod.snd, setRef_knows, setRef_same,
    setRef_other st (RemoteTrackerRef remoteName) tip (rslRef_ne_tracker remoteName)]

/-- Sample hashes for concrete instances. -/
def hashA : Hash := "1111111111111111111111111111111111111111"

/-- Sample hashes for concrete instances. -/
def hashB : Hash := "2222222222222222222222222222222222222222"

/-- Sample hashes for concrete instances. -/
def hashC : Hash := "3333333333333333333333333333333333333333"

/-! ### The claims -/

/-- C1: for every combination of ancestry relationships between the local
RSL tip and the fetched remote tracker tip, `CheckRemoteRSLForUpdates`
returns `(hasUpdates, diverged)` per the §4.4 table: both empty (an entirely
empty remote, the pristine row) → `(false, false)` without error; local
empty and remote non-empty → `(true, false)`; tips equal →
`(false, false)`; local a proper ancestor of remote → `(true, false)`;
remote a proper ancestor of local → `(false, false)`; neither an ancestor of
the other → `(true, true)`. -/
theorem checkRemoteRSLForUpdates_matches_table (st : RepoState) (remoteName : String) :
    ((CheckRemoteRSLForUpdates st remoteName .emptyRemote).2 = .ok (false, false))
    ∧ (∀ tip, st.refs RSLRef = ZeroHash →
        (CheckRemoteRSLForUpdates st remoteName (.success tip)).2 = .ok (true, false))
    ∧ (∀ tip, st.refs RSLRef ≠ ZeroHash → tip = st.refs RSLRef →
        (CheckRemoteRSLForUpdates st remoteName (.success tip)).2 = .ok (false, false))
    ∧ (∀ tip, st.refs RSLRef ≠ ZeroHash → tip ≠ st.refs RSLRef →
        st.knows tip (st.refs RSLRef) = true →
        (CheckRemoteRSLForUpdates st remoteName (.success tip)).2 = .ok (true, false))
    ∧ (∀ tip, st.refs RSLRef ≠ ZeroHash → tip ≠ st.refs RSLRef →
        st.knows tip (st.refs RSLRef) = false → st.knows (st.refs RSLRef) tip = true →
        (CheckRemoteRSLForUpdates st remoteName (.success tip)).2 = .ok (false, false))
    ∧ (∀ tip, st.refs RSLRef ≠ ZeroHash → tip ≠ st.refs RSLRef →
        st.knows tip (st.refs RSLRef) = false → st.knows (st.refs RSLRef) tip = false →
        (CheckRemoteRSLForUpdates st remoteName (.success tip)).2 = .ok (true, true)) := by
  refine ⟨rfl, ?_, ?_, ?_, ?_, ?_⟩
  · intro tip h1
    rw [checkRemote_success_result, if_pos h1]
  · intro tip h1 h2
    rw [checkRemote_success_result, if_neg h1, if_pos h2]
  · intro tip h1 h2 h3
    rw [checkRemote_success_result, if_neg h1, if_neg h2, if_pos h3]
  · intro tip h1 h2 h3 h4
    rw [checkRemote_success_result, if_neg h1, if_neg h2, if_neg (by simp [h3]), if_pos h4]
  · intro tip h1 h2 h3 h4
    rw [checkRemote_success_result, if_neg h1, if_neg h2, if_neg (by simp [h3]),
      if_neg (by simp [h4])]

theorem checkRemoteRSLForUpdates_matches_table_witness :
    (CheckRemoteRSLForUpdates
      { refs := fun r => if r = RSLRef then hashA else ZeroHash, rsl := [],
        knows := fun _ _ => false, absRef := fun s => s }
      ("origin") (.success hashB)).2 = .ok (true, true) :=
  (checkRemoteRSLForUpdates_matches_table _ ("origin")).2.2.2.2.2 hashB
    (by decide) (by decide) rfl rfl

/-- C2: a `ReferenceEntry` voided by at least one `Skip = true` annotation
anywhere in the chain is never returned by
`GetLatestUnskippedReferenceEntryForRef` for its reference name; in
particular, when every `ReferenceEntry` for the name is skipped, the query
fails with `rslEntryNotFound`. -/
theorem skippedEntry_never_returned (log : RSLLog) (refName : String) :
    (∀ id t as2, Entry.referenceEntry id refName t ∈ log →
        (∃ aid ids msg, Entry.annotationEntry aid ids true msg ∈ log ∧ id ∈ ids) →
        GetLatestUnskippedReferenceEntryForRef log refName
          ≠ .ok (Entry.referenceEntry id refName t, as2))
    ∧ ((∀ id rn t, Entry.referenceEntry id rn t ∈ log → rn = refName →
          ∃ aid ids msg, Entry.annotationEntry aid ids true msg ∈ log ∧ id ∈ ids) →
        GetLatestUnskippedReferenceEntryForRef log refName = .error .rslEntryNotFound) := by
  constructor
  · intro id t as2 _ hann hok
    have hskip := isSkipped_of_skipAnn hann
    unfold GetLatestUnskippedReferenceEntryForRef at hok
    have hunsk := getLatestUnskippedAux_ok log log refName []
      (Entry.referenceEntry id refName t) as2 hok
    simp only [Entry.getID] at hunsk
    rw [hunsk] at hskip
    exact absurd hskip (by simp)
  · intro hall
    unfold GetLatestUnskippedReferenceEntryForRef
    exact getLatestUnskippedAux_allSkipped log log refName []
      (fun id rn t hm hrn => isSkipped_of_skipAnn (hall id rn t hm hrn))

theorem skippedEntry_never_returned_witness :
    (GetLatestUnskippedReferenceEntryForRef
        [Entry.annotationEntry hashB [hashA] true [],
         Entry.referenceEntry hashA ("refs/heads/main") ZeroHash] ("refs/heads/main")
      ≠ .ok (Entry.referenceEntry hashA ("refs/heads/main") ZeroHash, []))
    ∧ GetLatestUnskippedReferenceEntryForRef
        [Entry.annotationEntry hashB [hashA] true [],
         Entry.referenceEntry hashA ("refs/heads/main") ZeroHash] ("refs/heads/main")
      = .error .rslEntryNotFound := by
  refine ⟨(skippedEntry_never_returned _ _).1 hashA ZeroHash [] (by simp)
    ⟨hashB, [hashA], [], by simp, by simp⟩, (skippedEntry_never_returned _ _).2 ?_⟩
  intro id rn t hm _
  simp only [List.mem_cons, List.not_mem_nil, or_false] at hm
  rcases hm with hm | hm
  · exact absurd hm (by simp)
  · obtain ⟨h1, _, _⟩ := Entry.referenceEntry.inj hm
    subst h1
    exact ⟨hashB, [hashA], [], by simp, by simp⟩

/-- C3: for every validly constructed entry — a reference entry with any
single-line reference name and hex target, an annotation with any non-empty
id list, skip flag and byte message (empty and multi-line included) —
parsing the serialized commit-message text at the entry's id yields the
entry back, equal on all semantic fields. -/
theorem entry_roundtrip (e : Entry) (h : ValidEntry e) :
    parseRSLEntryText e.getID (createCommitMessage e) = .ok e :=
  parse_createCommitMessage e h

theorem entry_roundtrip_witness :
    ValidEntry (Entry.annotationEntry ZeroHash [ZeroHash] true
      [108, 105, 110, 101, 49, 10, 108, 105, 110, 101, 50])
    ∧ parseRSLEntryText ZeroHash
        (createCommitMessage (Entry.annotationEntry ZeroHash [ZeroHash] true
          [108, 105, 110, 101, 49, 10, 108, 105, 110, 101, 50]))
      = .ok (Entry.annotationEntry ZeroHash [ZeroHash] true
          [108, 105, 110, 101, 49, 10, 108, 105, 110, 101, 50]) := by
  have hv : ValidEntry (Entry.annotationEntry ZeroHash [ZeroHash] true
      [108, 105, 110, 101, 49, 10, 108, 105, 110, 101, 50]) :=
    ⟨by decide, by decide, by decide⟩
  exact ⟨hv, entry_roundtrip _ hv⟩

/-- C4: `RecordRSLEntryForReference` is idempotent for an unchanged target:
after a first record, a second consecutive call for the same reference
(shorthand or absolute, canonicalizing to the same name) with the same
target leaves the repository unchanged, and when the target was not already
recorded the pair of calls appends exactly one entry; the duplicate check
compares the reference's current target against the latest unskipped
reference entry.  `hfresh` states that the content address assigned to the
new entry is not referenced by any pre-existing skip annotation. -/
theorem recordEntry_dedup (st : RepoState) (ref1 ref2 : String) (id1 id2 : Hash)
    (hsame : st.absRef ref1 = st.absRef ref2)
    (hfresh : isSkipped st.rsl id1 = false) :
    RecordRSLEntryForReference (RecordRSLEntryForReference st ref1 id1) ref2 id2
      = RecordRSLEntryForReference st ref1 id1
    ∧ (isDuplicateEntry st (st.absRef ref1) (st.refs (st.absRef ref1)) = false →
        (RecordRSLEntryForReference st ref1 id1).rsl
          = Entry.referenceEntry id1 (st.absRef ref1) (st.refs (st.absRef ref1)) :: st.rsl) := by
  by_cases hdup : isDuplicateEntry st (st.absRef ref1) (st.refs (st.absRef ref1)) = true
  · have h1 : RecordRSLEntryForReference st ref1 id1 = st := by
      simp only [RecordRSLEntryForReference]
      rw [if_pos hdup]
    constructor
    · rw [h1]
      simp only [RecordRSLEntryForReference]
      rw [← hsame, if_pos hdup]
    · intro hc
      rw [hc] at hdup
      exact absurd hdup (by simp)
  · have h1 : RecordRSLEntryForReference st ref1 id1
        = commitReferenceEntry st (st.absRef ref1) (st.refs (st.absRef ref1)) id1 := by
      simp only [RecordRSLEntryForReference]
      rw [if_neg hdup]
    have hdupAfter : isDuplicateEntry
        (commitReferenceEntry st (st.absRef ref1) (st.refs (st.absRef ref1)) id1)
        (st.absRef ref1) (st.refs (st.absRef ref1)) = true := by
      unfold isDuplicateEntry
      rw [show (commitReferenceEntry st (st.absRef ref1) (st.refs (st.absRef ref1)) id1).rsl
            = Entry.referenceEntry id1 (st.absRef ref1) (st.refs (st.absRef ref1)) :: st.rsl
          from rfl]
      rw [getLatestUnskipped_cons_ref st.rsl id1 (st.absRef ref1)
        (st.refs (st.absRef ref1)) hfresh]
      simp
    constructor
    · rw [h1]
      simp only [RecordRSLEntryForReference]
      rw [show (commitReferenceEntry st (st.absRef ref1) (st.refs (st.absRef ref1)) id1).absRef
            ref2 = st.absRef ref2 from rfl, ← hsame]
      rw [show (commitReferenceEntry st (st.absRef ref1) (st.refs (st.absRef ref1)) id1).refs
            (st.absRef ref1) = st.refs (st.absRef ref1) from rfl]
      rw [if_pos hdupAfter]
    · intro _
      rw [h1]
      rfl

theorem recordEntry_dedup_witness :
    RecordRSLEntryForReference
        (RecordRSLEntryForReference
          { refs := fun _ => hashA, rsl := [], knows := fun _ _ => false,
            absRef := fun s => s } ("refs/heads/main") hashB)
        ("refs/heads/main") hashC
      = RecordRSLEntryForReference
          { refs := fun _ => hashA, rsl := [], knows := fun _ _ => false,
            absRef := fun s => s } ("refs/heads/main") hashB
    ∧ (RecordRSLEntryForReference
          { refs := fun _ => hashA, rsl := [], knows := fun _ _ => false,
            absRef := fun s => s } ("refs/heads/main") hashB).rsl
      = [Entry.referenceEntry hashB ("refs/heads/main") hashA] := by
  have h := recordEntry_dedup
    { refs := fun _ => hashA, rsl := [], knows := fun _ _ => false, absRef := fun s => s }
    ("refs/heads/main") ("refs/heads/main") hashB hashC rfl rfl
  exact ⟨h.1, h.2 rfl⟩

/-- C5: `GetFirstReferenceEntryForCommit` returns the oldest reference
entry in the chain whose target equals the commit or has it as an ancestor
(no strictly older entry covers it), together with the annotations
referring to that entry, and fails with `noRecordOfCommit` exactly when no
entry in the log covers the commit. -/
theorem firstReferenceEntryForCommit_spec (st : RepoState) (c : Hash) :
    (∀ e anns, GetFirstReferenceEntryForCommit st c = .ok (e, anns) →
        entryCovers st.knows e c = true
        ∧ (∃ newer older, st.rsl = newer ++ e :: older
            ∧ ∀ e2 ∈ older, entryCovers st.knows e2 c = false)
        ∧ anns = annotationsFor st.rsl e.getID)
    ∧ (GetFirstReferenceEntryForCommit st c = .error .noRecordOfCommit ↔
        ∀ e ∈ st.rsl, entryCovers st.knows e c = false) := by
  constructor
  · intro e anns h
    unfold GetFirstReferenceEntryForCommit at h
    cases hf : firstRefEntryForCommitAux st.knows c st.rsl with
    | none =>
        rw [hf] at h
        exact absurd h (by simp)
    | some r =>
        rw [hf] at h
        injection h with h2
        obtain ⟨he, ha⟩ := Prod.mk.inj h2
        subst he
        obtain ⟨hcv, newer, older, hsplit, hold⟩ :=
          firstRefEntryForCommitAux_some st.rsl st.knows c _ hf
        exact ⟨hcv, ⟨newer, older, hsplit, hold⟩, ha.symm⟩
  · constructor
    · intro h
      unfold GetFirstReferenceEntryForCommit at h
      cases hf : firstRefEntryForCommitAux st.knows c st.rsl with
      | some r =>
          rw [hf] at h
          exact absurd h (by simp)
      | none => exact (firstRefEntryForCommitAux_none st.rsl st.knows c).mp hf
    · intro h
      unfold GetFirstReferenceEntryForCommit
      rw [(firstRefEntryForCommitAux_none st.rsl st.knows c).mpr h]

theorem firstReferenceEntryForCommit_spec_witness :
    entryCovers (fun _ _ => false) (Entry.referenceEntry hashA ("refs/heads/main") hashB)
        hashB = true
    ∧ (∃ newer older,
        [Entry.referenceEntry hashA ("refs/heads/main") hashB]
          = newer ++ Entry.referenceEntry hashA ("refs/heads/main") hashB :: older
        ∧ ∀ e2 ∈ older, entryCovers (fun _ _ => false) e2 hashB = false)
    ∧ ([] : List Entry) = annotationsFor
        [Entry.referenceEntry hashA ("refs/heads/main") hashB]
        (Entry.referenceEntry hashA ("refs/heads/main") hashB).getID :=
  (firstReferenceEntryForCommit_spec
    { refs := fun _ => ZeroHash, rsl := [Entry.referenceEntry hashA ("refs/heads/main") hashB],
      knows := fun _ _ => false, absRef := fun s => s } hashB).1
    (Entry.referenceEntry hashA ("refs/heads/main") hashB) [] (by rfl)

/-- C6 counterexample: annotating an entry id that denotes no existing RSL
entry does not succeed — on an empty log, a well-formed zero-hash id makes
RecordRSLAnnotation fail with `rslEntryNotFound`, exactly as the
repository's own test TestRecordRSLAnnotation asserts, refuting the claim that
the append path does not re-verify the referred ids. -/
theorem recordAnnotation_missing_counterexample :
    RecordRSLAnnotation
      { refs := fun _ => ZeroHash, rsl := [], knows := fun _ _ => false, absRef := fun s => s }
      [ZeroHash] false [116, 101, 115, 116] hashC
      = .error .rslEntryNotFound := by
  rfl

/-- C6 (amended): RecordRSLAnnotation with well-formed entry ids verifies
that each referred id denotes an existing entry of the RSL: it fails with
`rslEntryNotFound` when some id resolves to no entry, and succeeds —
committing the annotation as the new tip — when every id resolves. -/
theorem recordAnnotation_checks_existence (st : RepoState) (ids : List String) (skip : Bool)
    (msg : List Nat) (newID : Hash)
    (hvalid : ∀ s ∈ ids, isValidHexHash s = true) :
    ((∃ s ∈ ids, GetEntry st s = .error .rslEntryNotFound) →
        RecordRSLAnnotation st ids skip msg newID = .error .rslEntryNotFound)
    ∧ ((∀ s ∈ ids, GetEntry st s ≠ .error .rslEntryNotFound) →
        RecordRSLAnnotation st ids skip msg newID
          = .ok { st with rsl := Entry.annotationEntry newID ids skip msg :: st.rsl }) := by
  constructor
  · intro hex2
    simp only [ RecordRSLAnnotation, parseHashes_valid ids hvalid,
      checkEntriesExist_error st ids hex2]
  · intro hall
    simp only [ RecordRSLAnnotation, parseHashes_valid ids hvalid,
      checkEntriesExist_ok st ids hall]

theorem recordAnnotation_checks_existence_witness :
    RecordRSLAnnotation
      { refs := fun _ => ZeroHash,
        rsl := [Entry.referenceEntry hashA ("refs/heads/main") ZeroHash],
        knows := fun _ _ => false, absRef := fun s => s }
      [hashA] true [114, 101, 118, 111, 107, 101] hashB
      = Except.ok
        { refs := fun _ => ZeroHash,
          rsl := [Entry.annotationEntry hashB [hashA] true [114, 101, 118, 111, 107, 101],
            Entry.referenceEntry hashA ("refs/heads/main") ZeroHash],
          knows := fun _ _ => false, absRef := fun s => s } :=
  (recordAnnotation_checks_existence
    { refs := fun _ => ZeroHash,
      rsl := [Entry.referenceEntry hashA ("refs/heads/main") ZeroHash],
      knows := fun _ _ => false, absRef := fun s => s }
    [hashA] true [114, 101, 118, 111, 107, 101] hashB (by decide)).2 (by decide)

/-- C7: `PushRSL` fails with an error matching the `ErrPushingRSL` sentinel
exactly when the transport rejects the non-fast-forward push of the RSL
ref, and `PullRSL` fails with an error matching `ErrPullingRSL` exactly
when the fast-forward-only fetch is rejected; when the two RSLs have
diverged both operations fail with their sentinel, and a successful pull
simply takes the remote tip — no merging happens. -/
theorem pushPullRSL_sentinels (knows : Hash → Hash → Bool) (localTip remoteTip : Hash) :
    (errorIs (PushRSL knows localTip remoteTip) .errPushingRSL ↔
      ¬(remoteTip = ZeroHash ∨ remoteTip = localTip ∨ knows localTip remoteTip = true))
    ∧ (errorIs (PullRSL knows localTip remoteTip) .errPullingRSL ↔
      ¬(localTip = ZeroHash ∨ remoteTip = localTip ∨ knows remoteTip localTip = true))
    ∧ (localTip ≠ ZeroHash → remoteTip ≠ ZeroHash → localTip ≠ remoteTip →
        knows localTip remoteTip = false → knows remoteTip localTip = false →
        errorIs (PushRSL knows localTip remoteTip) .errPushingRSL
          ∧ errorIs (PullRSL knows localTip remoteTip) .errPullingRSL)
    ∧ (∀ tip, PullRSL knows localTip remoteTip = .ok tip → tip = remoteTip) := by
  have hpush : errorIs (PushRSL knows localTip remoteTip) .errPushingRSL ↔
      ¬(remoteTip = ZeroHash ∨ remoteTip = localTip ∨ knows localTip remoteTip = true) := by
    by_cases hc : remoteTip = ZeroHash ∨ remoteTip = localTip ∨ knows localTip remoteTip = true
    · simp [PushRSL, pushTransport, if_pos hc, errorIs, hc]
    · simp [PushRSL, pushTransport, if_neg hc, errorIs, hc]
  have hpull : errorIs (PullRSL knows localTip remoteTip) .errPullingRSL ↔
      ¬(localTip = ZeroHash ∨ remoteTip = localTip ∨ knows remoteTip localTip = true) := by
    by_cases hc : localTip = ZeroHash ∨ remoteTip = localTip ∨ knows remoteTip localTip = true
    · simp [PullRSL, fetchTransport, if_pos hc, errorIs, hc]
    · simp [PullRSL, fetchTransport, if_neg hc, errorIs, hc]
  refine ⟨hpush, hpull, ?_, ?_⟩
  · intro h1 h2 h3 h4 h5
    constructor
    · exact hpush.mpr (by
        rintro (hc | hc | hc)
        · exact h2 hc
        · exact h3 hc.symm
        · rw [h4] at hc; exact absurd hc (by simp))
    · exact hpull.mpr (by
        rintro (hc | hc | hc)
        · exact h1 hc
        · exact h3 hc.symm
        · rw [h5] at hc; exact absurd hc (by simp))
  · intro tip h
    unfold PullRSL at h
    cases hf : fetchTransport knows localTip remoteTip with
    | ok t2 =>
        rw [hf] at h
        simp only [] at h
        unfold fetchTransport at hf
        split at hf
        · injection hf with h3
          subst h3
          simpa using h.symm
        · exact absurd hf (by simp)
    | error e =>
        rw [hf] at h
        simp at h

theorem pushPullRSL_sentinels_witness :
    errorIs (PushRSL (fun _ _ => false) hashA hashB) .errPushingRSL
    ∧ errorIs (PullRSL (fun _ _ => false) hashA hashB) .errPullingRSL :=
  (pushPullRSL_sentinels (fun _ _ => false) hashA hashB).2.2.1
    (by decide) (by decide) (by decide) rfl rfl

/-- C8: for every `(ID, message)` pair the entry parser either rejects with
`invalidEntry` or accepts a message of the valid shape — a recognized
header line, a blank line, and key/value lines conforming to that variant's
schema — and never produces a partial entry; in particular a message
missing the header, a reference entry missing its `targetID` line, and an
annotation missing its `skip` line are all rejected with `invalidEntry`. -/
theorem parser_rejects_malformed :
    (∀ (id : Hash) (lines : List String),
        parseRSLEntryText id lines = .error .invalidEntry ∨ ValidMessageLines lines)
    ∧ parseRSLEntryText ZeroHash
        [kvLine RefKey ("refs/heads/main"), kvLine TargetIDKey ZeroHash]
        = .error .invalidEntry
    ∧ parseRSLEntryText ZeroHash
        [ReferenceEntryHeader, "", kvLine RefKey ("refs/heads/main")]
        = .error .invalidEntry
    ∧ parseRSLEntryText ZeroHash
        [AnnotationEntryHeader, "", kvLine EntryIDKey ZeroHash]
        = .error .invalidEntry := by
  refine ⟨?_, by rfl, by rfl, by rfl⟩
  intro id lines
  rcases parseRSLEntryText_shape id lines with h | ⟨e, h⟩
  · exact Or.inl h
  · exact Or.inr (parseRSLEntryText_ok h)

/-- C9: the annotation serializer omits the BEGIN/END message trailer
entirely when the message is empty, producing exactly the header, the blank
line, the `entryID` lines in order, and the `skip` line; the trailer with
the base64-encoded message bytes appears exactly when the message is
non-empty. -/
theorem annotation_trailer_iff_message (id : Hash) (ids : List Hash) (skip : Bool)
    (msg : List Nat) :
    (createCommitMessage (.annotationEntry id ids skip [])
        = [AnnotationEntryHeader, ""] ++ ids.map (kvLine EntryIDKey) ++ [skipLine skip])
    ∧ (msg ≠ [] → createCommitMessage (.annotationEntry id ids skip msg)
        = [AnnotationEntryHeader, ""] ++ ids.map (kvLine EntryIDKey) ++ [skipLine skip]
          ++ [BeginMessage, encodeB64Line msg, EndMessage])
    ∧ (BeginMessage ∈ createCommitMessage (.annotationEntry id ids skip msg) ↔ msg ≠ []) := by
  refine ⟨by simp [createCommitMessage, msgBlock], ?_, ?_, ?_⟩
  · intro hm
    simp [createCommitMessage, msgBlock, hm]
  · intro hmem
    by_contra hm
    subst hm
    simp [createCommitMessage, msgBlock] at hmem
    rcases hmem with h | h | ⟨i, _, h⟩ | h
    · exact absurd h (by decide)
    · exact absurd h (by decide)
    · exact entryIDLine_ne_begin i h
    · exact skipLine_ne_begin skip h.symm
  · intro hm
    simp [createCommitMessage, msgBlock, hm]

theorem annotation_trailer_iff_message_witness :
    createCommitMessage (.annotationEntry ZeroHash [ZeroHash] true [109])
      = [AnnotationEntryHeader, ""] ++ [ZeroHash].map (kvLine EntryIDKey) ++ [skipLine true]
        ++ [BeginMessage, encodeB64Line [109], EndMessage] :=
  (annotation_trailer_iff_message ZeroHash [ZeroHash] true [109]).2.1 (by decide)

/-- C10: `CheckRemoteRSLForUpdates` never modifies the local RSL ref: for
every repository state, remote name and fetch outcome — whether it reports
updates, divergence, or an error — the resulting state agrees with the
original on `refs/gittuf/reference-state-log` and on every reference other
than the per-remote tracker ref. -/
theorem checkRemoteRSLForUpdates_frame (st : RepoState) (remoteName : String)
    (fetch : FetchResult) :
    (CheckRemoteRSLForUpdates st remoteName fetch).1.refs RSLRef = st.refs RSLRef
    ∧ ∀ r, r ≠ RemoteTrackerRef remoteName →
        (CheckRemoteRSLForUpdates st remoteName fetch).1.refs r = st.refs r := by
  cases fetch with
  | emptyRemote => exact ⟨rfl, fun r hr => rfl⟩
  | failure => exact ⟨rfl, fun r hr => rfl⟩
  | success tip =>
      constructor
      · rw [checkRemote_success_state]
        exact setRef_other st _ tip (rslRef_ne_tracker remoteName)
      · intro r hr
        rw [checkRemote_success_state]
        exact setRef_other st _ tip hr

theorem checkRemoteRSLForUpdates_frame_witness :
    (CheckRemoteRSLForUpdates
      { refs := fun _ => ZeroHash, rsl := [], knows := fun _ _ => false, absRef := fun s => s }
      ("origin") (.success hashA)).1.refs ("refs/heads/main") = ZeroHash :=
  (checkRemoteRSLForUpdates_frame
    { refs := fun _ => ZeroHash, rsl := [], knows := fun _ _ => false, absRef := fun s => s }
    ("origin") (.success hashA)).2 ("refs/heads/main") (by decide)

end Gittuf
